import Mathlib

/-!
Verification of the reasoning-loop runtime of the multi-agent lead-generation
system, a shallow embedding of `src/agent/react_agent.py`.

Python strings are modelled as `List Char` (with `String` wrappers at the
interfaces).  The specific regular expressions used by the parser are embedded
as executable scanning functions whose semantics (leftmost match, greedy or
lazy repetition with backtracking where it matters) are derived from the
regexes in the source and documented at each definition.  `json.loads` and
`json.dumps` are embedded as a recursive-descent decoder / printer for the
JSON grammar over a `JValue` type; numbers keep their lexeme (the Python
int/float distinction never matters here) and the NaN/Infinity extension of
Python's decoder is noted where it is modelled.
-/

set_option maxRecDepth 16000

/-- Left brace character, kept as a named constant. -/
def lbraceC : Char := Char.ofNat 123

/-- Right brace character. -/
def rbraceC : Char := Char.ofNat 125

/-- Double-quote character. -/
def dquoteC : Char := Char.ofNat 34

/-- Single-quote character. -/
def squoteC : Char := Char.ofNat 39

/-- Backtick character. -/
def btickC : Char := Char.ofNat 96

/-- Backslash character. -/
def bslashC : Char := Char.ofNat 92

/-- Python whitespace for `str.strip()` and the regex class `\s` (ASCII part):
space, tab, newline, carriage return, vertical tab, form feed. -/
def pyWs (c : Char) : Bool :=
  c.toNat == 32 || (9 ≤ c.toNat && c.toNat ≤ 13)

/-- ASCII lowercasing, as performed by `re.IGNORECASE` on the ASCII letters
appearing in the markers of `_parse_react_output`. -/
def lowerA (c : Char) : Char :=
  if 'A' ≤ c && c ≤ 'Z' then Char.ofNat (c.toNat + 32) else c

/-- Python `str.strip()` on a character list: drop leading and trailing
whitespace. -/
def pyTrim (s : List Char) : List Char :=
  ((s.dropWhile pyWs).reverse.dropWhile pyWs).reverse

/-- Python `str.strip(chars)`: drop from both ends every character belonging
to the given set. -/
def stripEnds (bad : List Char) (s : List Char) : List Char :=
  ((s.dropWhile (fun c => bad.contains c)).reverse.dropWhile
    (fun c => bad.contains c)).reverse

/-- Does `s` start with `p` (exact characters)? -/
def leadsWith : List Char → List Char → Bool
  | [], _ => true
  | _ :: _, [] => false
  | p :: ps, c :: cs => p == c && leadsWith ps cs

/-- Does `s` contain `pat` as a contiguous substring (Python `in`)? -/
def hasSub (pat : List Char) : List Char → Bool
  | [] => leadsWith pat []
  | c :: cs => leadsWith pat (c :: cs) || hasSub pat cs

/-- Does `s` start with the (lowercase) marker `mk`, comparing
case-insensitively (`re.IGNORECASE`)? -/
def startsWithCI : List Char → List Char → Bool
  | _, [] => true
  | [], _ :: _ => false
  | c :: cs, m :: ms => lowerA c == m && startsWithCI cs ms

/-- Leftmost case-insensitive occurrence of the marker; returns the suffix of
the text following the marker.  This is the search performed by `re.search`
for a pattern beginning with a literal marker. -/
def findAfterCI (mk : List Char) : List Char → Option (List Char)
  | [] => none
  | c :: cs =>
    if startsWithCI (c :: cs) mk then some (List.drop mk.length (c :: cs))
    else findAfterCI mk cs

/-! ## JSON values and the embedding of `json.loads` -/

/-- JSON / Python data values.  Numbers keep their source lexeme. -/
inductive JValue where
  | jnull : JValue
  | jbool : Bool → JValue
  | jnum : String → JValue
  | jstr : String → JValue
  | jarr : List JValue → JValue
  | jobj : List (String × JValue) → JValue

/-- JSON whitespace accepted by Python's `json` module between tokens:
space, tab, newline, carriage return only. -/
def jsonWs (c : Char) : Bool :=
  c.toNat == 32 || c.toNat == 9 || c.toNat == 10 || c.toNat == 13

/-- Value of a hexadecimal digit. -/
def hexVal (c : Char) : Option Nat :=
  let n := c.toNat
  if 48 ≤ n && n ≤ 57 then some (n - 48)
  else if 97 ≤ n && n ≤ 102 then some (n - 87)
  else if 65 ≤ n && n ≤ 70 then some (n - 55)
  else none

/-- Decode a JSON string body (the part after the opening quote), handling
the escape sequences accepted by Python's strict decoder and rejecting
unescaped control characters.  Returns the decoded content and the rest of
the input after the closing quote.  (Surrogate-pair recombination for
`\uXXXX` escapes is not modelled; no claim involves such input.) -/
def jsonStringBody : List Char → Option (List Char × List Char)
  | [] => none
  | c :: cs =>
    if c == dquoteC then some ([], cs)
    else if c == bslashC then
      match cs with
      | [] => none
      | e :: cs2 =>
        if e == dquoteC then
          (jsonStringBody cs2).map (fun r => (dquoteC :: r.1, r.2))
        else if e == bslashC then
          (jsonStringBody cs2).map (fun r => (bslashC :: r.1, r.2))
        else if e == '/' then
          (jsonStringBody cs2).map (fun r => ('/' :: r.1, r.2))
        else if e == 'b' then
          (jsonStringBody cs2).map (fun r => (Char.ofNat 8 :: r.1, r.2))
        else if e == 'f' then
          (jsonStringBody cs2).map (fun r => (Char.ofNat 12 :: r.1, r.2))
        else if e == 'n' then
          (jsonStringBody cs2).map (fun r => ('\n' :: r.1, r.2))
        else if e == 'r' then
          (jsonStringBody cs2).map (fun r => ('\r' :: r.1, r.2))
        else if e == 't' then
          (jsonStringBody cs2).map (fun r => ('\t' :: r.1, r.2))
        else if e == 'u' then
          match cs2 with
          | h1 :: h2 :: h3 :: h4 :: cs3 =>
            match hexVal h1, hexVal h2, hexVal h3, hexVal h4 with
            | some v1, some v2, some v3, some v4 =>
              (jsonStringBody cs3).map
                (fun r => (Char.ofNat (((v1 * 16 + v2) * 16 + v3) * 16 + v4) :: r.1, r.2))
            | _, _, _, _ => none
          | _ => none
        else none
    else if c.toNat < 32 then none
    else (jsonStringBody cs).map (fun r => (c :: r.1, r.2))

/-- Optional fraction and exponent parts of a JSON number. -/
def jsonFrac (t : List Char) : List Char × List Char :=
  let (fr, t1) :=
    match t with
    | '.' :: u =>
      let digits := u.takeWhile Char.isDigit
      if digits.isEmpty then (([] : List Char), t)
      else ('.' :: digits, u.drop digits.length)
    | _ => ([], t)
  let (ex, t2) :=
    match t1 with
    | e :: u =>
      if e == 'e' || e == 'E' then
        let (sg, u1) :=
          match u with
          | '+' :: w => (['+'], w)
          | '-' :: w => (['-'], w)
          | w => (([] : List Char), w)
        let digits := u1.takeWhile Char.isDigit
        if digits.isEmpty then (([] : List Char), t1)
        else ([e] ++ sg ++ digits, u1.drop digits.length)
      else ([], t1)
    | [] => ([], t1)
  (fr ++ ex, t2)

/-- Lex a JSON number (`-?(0|[1-9][0-9]*)(\.[0-9]+)?([eE][+-]?[0-9]+)?`),
returning the lexeme and the rest. -/
def jsonNumberLex (s : List Char) : Option (List Char × List Char) :=
  let (sign, s1) :=
    match s with
    | '-' :: t => (['-'], t)
    | t => (([] : List Char), t)
  match s1 with
  | [] => none
  | d :: t =>
    if d == '0' then
      let (frac, t2) := jsonFrac t
      some (sign ++ [d] ++ frac, t2)
    else if '1' ≤ d && d ≤ '9' then
      let digits := t.takeWhile Char.isDigit
      let t1 := t.drop digits.length
      let (frac, t2) := jsonFrac t1
      some (sign ++ [d] ++ digits ++ frac, t2)
    else none

mutual

/-- Recursive-descent decoder for one JSON value, fuelled (the fuel is an
upper bound on nesting depth; `jsonLoads` supplies more fuel than any input
can consume, so the fuel never runs out on reachable inputs).  Expects the
input to start at a non-whitespace character. -/
def jsonVal : Nat → List Char → Option (JValue × List Char)
  | 0, _ => none
  | _ + 1, [] => none
  | fuel + 1, c :: cs =>
    if c == dquoteC then
      (jsonStringBody cs).map (fun r => (JValue.jstr r.1.asString, r.2))
    else if c == lbraceC then
      let t := cs.dropWhile jsonWs
      match t with
      | d :: t1 =>
        if d == rbraceC then some (JValue.jobj [], t1)
        else
          (jsonMembers fuel t).map (fun r => (JValue.jobj r.1, r.2))
      | [] => none
    else if c == '[' then
      let t := cs.dropWhile jsonWs
      match t with
      | d :: t1 =>
        if d == ']' then some (JValue.jarr [], t1)
        else (jsonItems fuel t).map (fun r => (JValue.jarr r.1, r.2))
      | [] => none
    else if leadsWith ("true".toList) (c :: cs) then
      some (JValue.jbool true, (c :: cs).drop 4)
    else if leadsWith ("false".toList) (c :: cs) then
      some (JValue.jbool false, (c :: cs).drop 5)
    else if leadsWith ("null".toList) (c :: cs) then
      some (JValue.jnull, (c :: cs).drop 4)
    else if leadsWith ("NaN".toList) (c :: cs) then
      some (JValue.jnum ("NaN"), (c :: cs).drop 3)
    else if leadsWith ("Infinity".toList) (c :: cs) then
      some (JValue.jnum ("Infinity"), (c :: cs).drop 8)
    else if leadsWith ("-Infinity".toList) (c :: cs) then
      some (JValue.jnum ("-Infinity"), (c :: cs).drop 9)
    else
      (jsonNumberLex (c :: cs)).map (fun r => (JValue.jnum r.1.asString, r.2))

/-- Object members, starting at a position expecting a key (so `{}` has been
handled by the caller; a trailing comma is a decode error, as in Python). -/
def jsonMembers : Nat → List Char → Option (List (String × JValue) × List Char)
  | 0, _ => none
  | _ + 1, [] => none
  | fuel + 1, c :: cs =>
    if c == dquoteC then
      match jsonStringBody cs with
      | none => none
      | some (key, r1) =>
        match r1.dropWhile jsonWs with
        | ':' :: r2 =>
          match jsonVal fuel (r2.dropWhile jsonWs) with
          | none => none
          | some (v, r3) =>
            match r3.dropWhile jsonWs with
            | ',' :: r4 =>
              (jsonMembers fuel (r4.dropWhile jsonWs)).map
                (fun r => ((key.asString, v) :: r.1, r.2))
            | d :: r4 =>
              if d == rbraceC then some ([(key.asString, v)], r4) else none
            | [] => none
        | _ => none
    else none

/-- Array items, starting at a position expecting a value. -/
def jsonItems : Nat → List Char → Option (List JValue × List Char)
  | 0, _ => none
  | fuel + 1, s =>
    match jsonVal fuel s with
    | none => none
    | some (v, r1) =>
      match r1.dropWhile jsonWs with
      | ',' :: r2 =>
        (jsonItems fuel (r2.dropWhile jsonWs)).map (fun r => (v :: r.1, r.2))
      | ']' :: r2 => some ([v], r2)
      | _ => none

end

/-- Embedding of Python `json.loads`: decode one value with surrounding
whitespace, rejecting any trailing non-whitespace data. -/
def jsonLoads (s : List Char) : Option JValue :=
  let t := s.dropWhile jsonWs
  match jsonVal (t.length + 2) t with
  | some (v, rest) => if (rest.dropWhile jsonWs).isEmpty then some v else none
  | none => none

/-! ## The lenient repair pass of `_parse_react_output` (source lines 148-160) -/

/-- Python `\w` on the ASCII range: the word characters used by the `\b`
boundaries in `re.sub(r'\bTrue\b', ...)`. -/
def wordChar (c : Char) : Bool :=
  c.isAlpha || c.isDigit || c == '_'

/-- Is a word boundary permitted before the current position, given the
previous character (`none` at the start of the string)? -/
def boundaryBefore : Option Char → Bool
  | none => true
  | some p => !wordChar p

/-- Is a word boundary present at the start of the remaining text? -/
def boundaryAfter : List Char → Bool
  | [] => true
  | d :: _ => !wordChar d

/-- Scanner for `re.sub(rF'\b{tgt}\b', repl, s)` with a fixed nonempty word
`tgt = t :: ts`: replace every occurrence of `tgt` that is delimited by word
boundaries, scanning left to right and resuming after each replacement.  The
`fuel` argument (at least the length of the text, so it never runs out) only
makes the recursion structural; each step consumes at least one character. -/
def subWord (t : Char) (ts : List Char) (repl : List Char) :
    Nat → Option Char → List Char → List Char
  | 0, _, s => s
  | _ + 1, _, [] => []
  | fuel + 1, prev, c :: cs =>
    if boundaryBefore prev && leadsWith (t :: ts) (c :: cs) &&
        boundaryAfter (List.drop (ts.length + 1) (c :: cs)) then
      repl ++ subWord t ts repl fuel (some (ts.getLastD t)) (List.drop (ts.length + 1) (c :: cs))
    else
      c :: subWord t ts repl fuel (some c) cs

/-- `re.sub` of a whole-word literal, as used by the repair pass. -/
def pySubWord (tgt repl : List Char) (s : List Char) : List Char :=
  match tgt with
  | [] => s
  | t :: ts => subWord t ts repl (s.length + 1) none s

/-- `re.sub(r'[\x00-\x1f\x7f-\x9f]', ' ', s)`: replace control characters
with a space. -/
def stripCtrl (s : List Char) : List Char :=
  s.map (fun c =>
    if c.toNat ≤ 31 || (127 ≤ c.toNat && c.toNat ≤ 159) then ' ' else c)

/-- The repair pass applied to an undecodable Action Input payload: normalize
the Python literal spellings `True`/`False`/`None` to the canonical JSON
ones, then strip control characters (source lines 150-155). -/
def repairJson (js : List Char) : List Char :=
  stripCtrl
    (pySubWord ("None".toList) ("null".toList)
      (pySubWord ("False".toList) ("false".toList)
        (pySubWord ("True".toList) ("true".toList) js)))

/-! ## The output parser `_parse_react_output` (source lines 95-183) -/

/-- Marker of the terminal check `re.search(r'Final Answer:\s*(.+)', text,
re.DOTALL | re.IGNORECASE)`, stored lowercase. -/
def finalMarker : List Char := "final answer:".toList

/-- Marker of `re.search(r'Thought:\s*([^\n]+)', text, re.IGNORECASE)`. -/
def thoughtMarker : List Char := "thought:".toList

/-- Marker of `re.search(r'Action:\s*([^\n]+)', text, re.IGNORECASE)`. -/
def actionMarker : List Char := "action:".toList

/-- Marker of the two `Action Input` regexes. -/
def inputMarker : List Char := "action input:".toList

/-- Group of `\s*([^\n]+)` at a position directly after a marker, with the
backtracking semantics of the Python regex engine: the greedy `\s*` consumes
the maximal whitespace run; if anything remains, the group is the following
maximal run of non-newline characters; if the whole suffix is whitespace,
`\s*` backtracks so that the group becomes the last non-newline (whitespace)
character, and the occurrence fails only when the suffix is empty or all
newlines. -/
def wsNonNlGroup (s : List Char) : Option (List Char) :=
  let rest := s.dropWhile pyWs
  if rest.isEmpty then
    match (s.filter (fun c => !(c == '\n'))).getLast? with
    | some c => some [c]
    | none => none
  else
    some (rest.takeWhile (fun c => !(c == '\n')))

/-- `re.search` for a pattern of the form `marker` followed by a body: try
every start position left to right; at each case-insensitive occurrence of
the marker, attempt the body match on the suffix, and move on if it fails. -/
def scanMarker (mk : List Char) (body : List Char → Option (List Char)) :
    List Char → Option (List Char)
  | [] => none
  | c :: cs =>
    match (if startsWithCI (c :: cs) mk then body (List.drop mk.length (c :: cs)) else none) with
    | some g => some g
    | none => scanMarker mk body cs

/-- Scan for the first closing brace of the lazy group `\{.*?\}\s*$`
(`re.MULTILINE`, `re.DOTALL`): the first `\}` after which the rest of the
line is whitespace closes the group; any other `\}` is swallowed by `.*?`.
`acc` holds the reversed group contents read so far. -/
def closeScan (acc : List Char) : List Char → Option (List Char)
  | [] => none
  | c :: cs =>
    if c == rbraceC && (cs.takeWhile (fun d => !(d == '\n'))).all pyWs then
      some ((rbraceC :: acc).reverse)
    else
      closeScan (c :: acc) cs

/-- Body of the strict Action Input regex `Action Input:\s*(\{.*?\}\s*$)`:
after the marker, the greedy `\s*` must end exactly at a `{` (whitespace is
never `{`, so no backtracking arises), and the group runs to the first
closing brace followed by a whitespace-only line tail.  The trailing `\s*`
captured by the group is removed by the `.strip()` the source applies. -/
def strictBody (s : List Char) : Option (List Char) :=
  match s.dropWhile pyWs with
  | c :: body => if c == lbraceC then closeScan [lbraceC] body else none
  | [] => none

/-- Body of the fallback regex `Action Input:\s*(\{[^}]+\})`: a brace, at
least one non-brace character, and a closing brace. -/
def laxBody (s : List Char) : Option (List Char) :=
  match s.dropWhile pyWs with
  | c :: body =>
    if c == lbraceC then
      let inner := body.takeWhile (fun d => !(d == rbraceC))
      if !inner.isEmpty && inner.length < body.length then
        some (lbraceC :: (inner ++ [rbraceC]))
      else none
    else none
  | [] => none

/-- The `json_str` selected by `_parse_react_output` (source lines 134-141):
the strict match, or on failure the lax fallback. -/
def extractJsonStr (text : List Char) : Option (List Char) :=
  match scanMarker inputMarker strictBody text with
  | some g => some g
  | none => scanMarker inputMarker laxBody text

/-- The parsed `action_input` (source lines 140-163): decode the selected
payload; on failure repair it and retry once; on failure again, or when no
payload was matched at all, fall back to the empty map. -/
def decodeInput (text : List Char) : JValue :=
  match extractJsonStr text with
  | none => JValue.jobj []
  | some js =>
    match jsonLoads js with
    | some v => v
    | none =>
      match jsonLoads (repairJson js) with
      | some v => v
      | none => JValue.jobj []

/-- Does the Action Input payload fail to decode even after the repair pass
(or fail to be located at all)?  Under this condition the parser falls back
to the empty argument map. -/
def inputUndecodable (text : List Char) : Bool :=
  match extractJsonStr text with
  | none => true
  | some js => (jsonLoads js).isNone && (jsonLoads (repairJson js)).isNone

/-- Name clean-up applied to the `Action:` group (source lines 120-128):
strip decorative backticks and quotes from both ends, then drop any trailing
call-style suffix `name(args)` and strip again. -/
def cleanActionName (a : List Char) : List Char :=
  let a1 := stripEnds [btickC, squoteC, dquoteC] a
  if a1.contains '(' then pyTrim (a1.takeWhile (fun c => !(c == '('))) else a1

/-- Tagged result of `_parse_react_output`. -/
inductive ParseResult where
  | finalA (content : String)
  | actionR (thought name : String) (input : JValue)
  | thoughtR (thought : String)
  | unknownR (raw : String)

/-- The terminal check (source lines 104-110): leftmost case-insensitive
`Final Answer:` marker.  The regex requires at least one following character
(`\s*(.+)` with `re.DOTALL`); when the leftmost occurrence sits at the very
end of the text no later occurrence can exist either, so the whole search
fails exactly when the suffix is empty. -/
def finalCheck (text : List Char) : Option (List Char) :=
  match findAfterCI finalMarker text with
  | some suf => if suf.isEmpty then none else some (pyTrim suf)
  | none => none

/-- The extracted `thought` (source lines 112-114): the stripped `Thought:`
group, or the empty string when no match. -/
def thoughtOf (text : List Char) : String :=
  match scanMarker thoughtMarker wsNonNlGroup text with
  | some g => (pyTrim g).asString
  | none => ""

/-- The extracted and cleaned `action` name (source lines 116-128), as the
truthiness checks of the source see it: `none` when the match is missing or
the name is empty (falsy) before or after clean-up. -/
def actionNameOf (text : List Char) : Option String :=
  match scanMarker actionMarker wsNonNlGroup text with
  | some g =>
    let a0 := pyTrim g
    let a1 := if a0.isEmpty then a0 else cleanActionName a0
    if a1.isEmpty then none else some a1.asString
  | none => none

/-- Embedding of `_parse_react_output` (source lines 95-183): terminal check
first and exclusively; otherwise an action (with its decoded input) when an
action name survives clean-up; otherwise a bare thought; otherwise the raw
text as unrecognized. -/
def parseCore (text : List Char) : ParseResult :=
  match finalCheck text with
  | some content => ParseResult.finalA content.asString
  | none =>
    match actionNameOf text with
    | some n => ParseResult.actionR (thoughtOf text) n (decodeInput text)
    | none =>
      if thoughtOf text = "" then ParseResult.unknownR text.asString
      else ParseResult.thoughtR (thoughtOf text)

/-- `_parse_react_output` on a `String`. -/
def parse_react_output (s : String) : ParseResult :=
  parseCore s.toList

/-! ## `_clean_email_data` (source lines 185-216) -/

mutual

/-- Embedding of `_clean_email_data`: leave anything that is not a mapping
or a sequence unchanged; recurse into sequences; for mappings, drop every
`body_html` entry and recurse into container values while keeping scalar
values as they are.  The three functions mirror the one recursive Python
function on the three syntactic shapes it dispatches on. -/
def clean_email_data : JValue → JValue
  | JValue.jarr xs => JValue.jarr (cleanList xs)
  | JValue.jobj kvs => JValue.jobj (cleanKVs kvs)
  | v => v

/-- `_clean_email_data` mapped over the items of a sequence. -/
def cleanList : List JValue → List JValue
  | [] => []
  | x :: xs => clean_email_data x :: cleanList xs

/-- The dict comprehension of `_clean_email_data`: skip `body_html`, recurse
into dict or list values, keep other values verbatim, preserving order. -/
def cleanKVs : List (String × JValue) → List (String × JValue)
  | [] => []
  | (k, v) :: rest =>
    if k = "body_html" then cleanKVs rest
    else
      match v with
      | JValue.jobj kvs2 => (k, clean_email_data (JValue.jobj kvs2)) :: cleanKVs rest
      | JValue.jarr xs => (k, clean_email_data (JValue.jarr xs)) :: cleanKVs rest
      | other => (k, other) :: cleanKVs rest

end

mutual

/-- Redaction as the specification words it: the output is structurally
identical to the input except that the key `body_html` is absent at every
mapping depth, including inside nested sequences; every other entry is kept
in order with its value redacted recursively and otherwise untouched. -/
def specRedact : JValue → JValue
  | JValue.jarr xs => JValue.jarr (specRedactList xs)
  | JValue.jobj kvs => JValue.jobj (specRedactKVs kvs)
  | v => v

/-- Spec-side redaction of the items of a sequence. -/
def specRedactList : List JValue → List JValue
  | [] => []
  | x :: xs => specRedact x :: specRedactList xs

/-- Spec-side redaction of the entries of a mapping. -/
def specRedactKVs : List (String × JValue) → List (String × JValue)
  | [] => []
  | (k, v) :: rest =>
    if k = "body_html" then specRedactKVs rest
    else (k, specRedact v) :: specRedactKVs rest

end

mutual

/-- Is the key `body_html` absent from every mapping at every depth? -/
def noBulky : JValue → Bool
  | JValue.jarr xs => noBulkyList xs
  | JValue.jobj kvs => noBulkyKVs kvs
  | _ => true

/-- `noBulky` over the items of a sequence. -/
def noBulkyList : List JValue → Bool
  | [] => true
  | x :: xs => noBulky x && noBulkyList xs

/-- `noBulky` over the entries of a mapping. -/
def noBulkyKVs : List (String × JValue) → Bool
  | [] => true
  | (k, v) :: rest => !(k == "body_html") && noBulky v && noBulkyKVs rest

end

/-- Is the value a mapping or a sequence (`isinstance(data, (dict, list))`)? -/
def isContainer : JValue → Bool
  | JValue.jarr _ => true
  | JValue.jobj _ => true
  | _ => false

/-! ## Embedding of `json.dumps` -/

/-- The string of a single brace, built from the character constant. -/
def lbraceS : String := String.mk [lbraceC]

/-- The string of a single closing brace. -/
def rbraceS : String := String.mk [rbraceC]

/-- The string of a double quote. -/
def dquoteS : String := String.mk [dquoteC]

/-- Lowercase hexadecimal digit. -/
def hexDigit (n : Nat) : Char :=
  if n < 10 then Char.ofNat ('0'.toNat + n) else Char.ofNat ('a'.toNat + n - 10)

/-- Four hexadecimal digits of a (BMP) code point, for `\uXXXX` escapes. -/
def hex4 (n : Nat) : List Char :=
  [hexDigit (n / 4096 % 16), hexDigit (n / 256 % 16), hexDigit (n / 16 % 16),
   hexDigit (n % 16)]

/-- `json.dumps` escaping of one character (`ensure_ascii=True`; astral
code points would use surrogate pairs, which are not modelled — no claim
touches them). -/
def escJ (c : Char) : List Char :=
  if c == dquoteC then [bslashC, dquoteC]
  else if c == bslashC then [bslashC, bslashC]
  else if c == '\n' then [bslashC, 'n']
  else if c == '\t' then [bslashC, 't']
  else if c == '\r' then [bslashC, 'r']
  else if c == Char.ofNat 8 then [bslashC, 'b']
  else if c == Char.ofNat 12 then [bslashC, 'f']
  else if c.toNat < 32 || c.toNat > 126 then [bslashC, 'u'] ++ hex4 c.toNat
  else [c]

/-- A JSON string literal for `json.dumps`. -/
def quoteJ (s : String) : String :=
  dquoteS ++ (s.toList.flatMap escJ).asString ++ dquoteS

/-- `indent * level` spaces, for `json.dumps(..., indent=2)`. -/
def spaces (lvl : Nat) : String :=
  (List.replicate (2 * lvl) ' ').asString

mutual

/-- `json.dumps(v, default=str, indent=2)` (used for observations, source
line 249): containers open on their own line, items indented by two spaces
per level, item separator `,\n`, key separator `: `. -/
def dumpsInd : Nat → JValue → String
  | _, JValue.jnull => "null"
  | _, JValue.jbool true => "true"
  | _, JValue.jbool false => "false"
  | _, JValue.jnum lx => lx
  | _, JValue.jstr s => quoteJ s
  | _, JValue.jarr [] => "[]"
  | lvl, JValue.jarr (x :: xs) =>
    "[\n" ++ dumpsIndItems (lvl + 1) (x :: xs) ++ "\n" ++ spaces lvl ++ "]"
  | _, JValue.jobj [] => lbraceS ++ rbraceS
  | lvl, JValue.jobj (kv :: kvs) =>
    lbraceS ++ "\n" ++ dumpsIndKVs (lvl + 1) (kv :: kvs) ++ "\n" ++ spaces lvl ++ rbraceS

/-- Indented items of a sequence, separated by `,\n`. -/
def dumpsIndItems : Nat → List JValue → String
  | _, [] => ""
  | lvl, [x] => spaces lvl ++ dumpsInd lvl x
  | lvl, x :: y :: ys =>
    spaces lvl ++ dumpsInd lvl x ++ ",\n" ++ dumpsIndItems lvl (y :: ys)

/-- Indented entries of a mapping, separated by `,\n`. -/
def dumpsIndKVs : Nat → List (String × JValue) → String
  | _, [] => ""
  | lvl, [(k, v)] => spaces lvl ++ quoteJ k ++ ": " ++ dumpsInd lvl v
  | lvl, (k, v) :: kv2 :: kvs =>
    spaces lvl ++ quoteJ k ++ ": " ++ dumpsInd lvl v ++ ",\n" ++ dumpsIndKVs lvl (kv2 :: kvs)

end

/-- `json.dumps(v, default=str, indent=2)` at top level. -/
def dumps2 (v : JValue) : String := dumpsInd 0 v

mutual

/-- Compact `json.dumps(v)` (used for the scratchpad's `Action Input` line,
source line 437): default separators `, ` and `: `. -/
def dumpsC : JValue → String
  | JValue.jnull => "null"
  | JValue.jbool true => "true"
  | JValue.jbool false => "false"
  | JValue.jnum lx => lx
  | JValue.jstr s => quoteJ s
  | JValue.jarr [] => "[]"
  | JValue.jarr (x :: xs) => "[" ++ dumpsCItems (x :: xs) ++ "]"
  | JValue.jobj [] => lbraceS ++ rbraceS
  | JValue.jobj (kv :: kvs) => lbraceS ++ dumpsCKVs (kv :: kvs) ++ rbraceS

/-- Compact items of a sequence, separated by `, `. -/
def dumpsCItems : List JValue → String
  | [] => ""
  | [x] => dumpsC x
  | x :: y :: ys => dumpsC x ++ ", " ++ dumpsCItems (y :: ys)

/-- Compact entries of a mapping, separated by `, `. -/
def dumpsCKVs : List (String × JValue) → String
  | [] => ""
  | [(k, v)] => quoteJ k ++ ": " ++ dumpsC v
  | (k, v) :: kv2 :: kvs => quoteJ k ++ ": " ++ dumpsC v ++ ", " ++ dumpsCKVs (kv2 :: kvs)

end

/-! ## `_execute_tool` (source lines 218-254) -/

/-- An external action capability: `invoke` either returns a result value or
raises (modelled as `Except.error` carrying `str(e)`). -/
structure Tool where
  invoke : JValue → Except String JValue

/-- Dictionary lookup in `self.tool_map` (tool names assumed distinct, as
they are in the registered catalogs). -/
def lookupTool : List (String × Tool) → String → Option Tool
  | [], _ => none
  | (k, t) :: rest, name => if k = name then some t else lookupTool rest name

/-- `", ".join(keys)`. -/
def joinComma : List String → String
  | [] => ""
  | [s] => s
  | s :: rest => s ++ ", " ++ joinComma rest

/-- The email tools whose observations get the redaction pass (source
line 243). -/
def emailToolNames : List String :=
  ["search_and_fetch_emails", "batch_fetch_emails", "fetch_email",
   "list_unread", "dynamic_mail_fetch_tool"]

/-- Python `str()` of a scalar result (the container cases are handled
before `str()` is reached in the source; they are given an arbitrary total
extension here). -/
def pyStrScalar : JValue → String
  | JValue.jstr s => s
  | JValue.jnum lx => lx
  | JValue.jbool true => "True"
  | JValue.jbool false => "False"
  | JValue.jnull => "None"
  | v => dumpsC v

/-- Final normalization of a structured observation (source lines 242-250):
redact email data for the email tools, then serialize with `indent=2`. -/
def finishObs (name : String) (d : JValue) : String :=
  let d2 := if emailToolNames.contains name then clean_email_data d else d
  dumps2 d2

/-- Embedding of `_execute_tool`: unknown names produce a bounded error
string (catalog listing truncated to 200 characters); exceptions from the
capability are converted to a bounded error string; structured results are
serialized (with email redaction for email tools); scalar results are
re-decoded as JSON when possible and otherwise returned verbatim. -/
def execute_tool (tm : List (String × Tool)) (name : String) (input : JValue) : String :=
  match lookupTool tm name with
  | none =>
    "Error: Tool '" ++ name ++ "' not found. Available tools: " ++
      ((joinComma (tm.map Prod.fst)).take 200) ++ "..."
  | some tool =>
    match tool.invoke input with
    | Except.error e => "Error executing tool '" ++ name ++ "': " ++ e
    | Except.ok result =>
      match result with
      | JValue.jobj kvs => finishObs name (JValue.jobj kvs)
      | JValue.jarr xs => finishObs name (JValue.jarr xs)
      | scalar =>
        let rs := pyStrScalar scalar
        match jsonLoads rs.toList with
        | some data => finishObs name data
        | none => rs

/-! ## `run_streaming` (source lines 257-476)

The wall-clock `timestamp` field of `ReActStep` is an external effect
(`datetime.now()`) and is not modelled; every other field is.  The model
collaborator is an oracle receiving the iteration number and the current
scratchpad — the real prompt is a deterministic function of the scratchpad
and fixed text, so every behaviour of the real collaborator is a behaviour
of some oracle.  The `cancellation_callback` (a nullary stateful callable,
consulted once at the top of each iteration) is modelled as a predicate on
the iteration number; the absent callback is the constantly-false
predicate.  The optional `callback` receives exactly the steps that are
yielded and does not influence the run, so it is not modelled separately. -/

/-- One step of the ReAct loop (class `ReActStep`, source lines 16-24,
without the wall-clock timestamp). -/
structure ReActStep where
  step_type : String
  content : String
  tool_name : Option String := none
  tool_input : Option JValue := none
  tool_output : Option String := none

/-- The thought step yielded in the action and thought branches (source
lines 398-405 and 450-457). -/
def thoughtStep (th : String) : ReActStep :=
  { step_type := "thought", content := th }

/-- The action step (source lines 408-417). -/
def actionStep (name : String) (inp : JValue) : ReActStep :=
  { step_type := "action", content := name, tool_name := some name,
    tool_input := some inp }

/-- The observation step (source lines 423-432). -/
def obsStep (name obs : String) : ReActStep :=
  { step_type := "observation", content := obs, tool_name := some name,
    tool_output := some obs }

/-- The terminal step for a genuine model final answer (source
lines 385-393). -/
def finalStep (c : String) : ReActStep :=
  { step_type := "final_answer", content := c }

/-- The terminal step emitted on cancellation (source lines 311-319). -/
def cancelStep : ReActStep :=
  { step_type := "final_answer", content := "Task cancelled by user" }

/-- The user-facing diagnostic for a failed model invocation (source lines
354-368), distinguishing context-length exhaustion by substring checks on
the lowercased exception text. -/
def errorContent (e : String) : String :=
  let el := e.toList.map lowerA
  let isCtx := hasSub ("maximum context length".toList) el ||
    hasSub ("tokens".toList) el || hasSub ("context".toList) el
  if isCtx then
    "⚠️ **Context Length Exceeded!**\n\n" ++
    "The conversation has exceeded the maximum token limit.\n\n" ++
    "**Error:** " ++ e ++ "\n\n" ++
    "**Solution:** Please clear the chat history using the '🧹 Clear Chat' button in the sidebar and start a new conversation."
  else ("LLM error: " ++ e)

/-- The terminal step emitted when the model invocation raises (source
lines 370-377). -/
def errorStep (e : String) : ReActStep :=
  { step_type := "error", content := errorContent e }

/-- Content of the cap-reached terminal step (source line 469). -/
def capContent (maxIter : Nat) : String :=
  "I've reached the maximum number of reasoning steps (" ++ toString maxIter ++
  "). Based on what I've accomplished, the task has been completed."

/-- The synthetic terminal step emitted when the iteration cap is reached
(source lines 467-471). -/
def timeoutStep (maxIter : Nat) : ReActStep :=
  { step_type := "final_answer", content := capContent maxIter }

/-- The external collaborators of one `run_streaming` call. -/
structure Agent where
  llm : Nat → String → Except String String
  tools : List (String × Tool)
  cancel : Nat → Bool

/-- The completion sentinel scanned for in observations (source line 443). -/
def endTaskSentinel : List Char := "[END_TASK]".toList

/-- The scratchpad text appended after an action iteration (source lines
435-446), including the system note when the observation carries the
completion sentinel. -/
def padAfterAction (pad th name : String) (inp : JValue) (obs : String) : String :=
  let pad1 := pad ++ "\nThought: " ++ th ++ "\n" ++ "Action: " ++ name ++ "\n" ++
    "Action Input: " ++ dumpsC inp ++ "\n" ++ "Observation: " ++ obs ++ "\n"
  if hasSub endTaskSentinel obs.toList then
    pad1 ++ "\n[SYSTEM]: Task marked as complete. Provide Final Answer now.\n"
  else pad1

/-- The steps yielded by one action iteration (source lines 395-432): the
thought step when the thought is nonempty, then the action step, then the
observation step. -/
def actionBlock (th name : String) (inp : JValue) (obs : String) : List ReActStep :=
  (if th = "" then [] else [thoughtStep th]) ++
    [actionStep name inp, obsStep name obs]

/-- The loop of `run_streaming` (source lines 303-476).  `fuel` is the
number of iterations still allowed (`max_iterations - (it - 1)` for
iteration counter `it`); the returned pair is the list of yielded steps and
the generator's return value.  Each iteration: cancellation check, model
invocation (a failure ends the run with an error step), parse of the
stripped reply, then the four parse branches of the source. -/
def goLoop (A : Agent) (maxIter : Nat) : Nat → Nat → String → List ReActStep × String
  | 0, _, _ => ([timeoutStep maxIter], capContent maxIter)
  | fuel + 1, it, pad =>
    if A.cancel it then ([cancelStep], "Task cancelled by user")
    else
      match A.llm it pad with
      | Except.error e => ([errorStep e], errorContent e)
      | Except.ok raw =>
        let outL := pyTrim raw.toList
        match parseCore outL with
        | ParseResult.finalA c => ([finalStep c], c)
        | ParseResult.actionR th name inp =>
          let obs := execute_tool A.tools name inp
          let next := goLoop A maxIter fuel (it + 1) (padAfterAction pad th name inp obs)
          (actionBlock th name inp obs ++ next.1, next.2)
        | ParseResult.thoughtR th =>
          let next := goLoop A maxIter fuel (it + 1) (pad ++ "\nThought: " ++ th ++ "\n")
          (thoughtStep th :: next.1, next.2)
        | ParseResult.unknownR rawc =>
          goLoop A maxIter fuel (it + 1) (pad ++ "\n" ++ rawc ++ "\n")

/-- Embedding of `run_streaming`: the full sequence of yielded steps and the
returned answer, for a given iteration cap. -/
def run_streaming (A : Agent) (maxIter : Nat) : List ReActStep × String :=
  goLoop A maxIter maxIter 1 ""

/-- The agent with cancellation never requested (the `None` callback). -/
def noCancel (A : Agent) : Agent :=
  { A with cancel := fun _ => false }

/-- The number of steps of a given kind in a run's output. -/
def countType (t : String) : List ReActStep → Nat
  | [] => 0
  | s :: rest => (if s.step_type == t then 1 else 0) + countType t rest

/-- Every action step is immediately followed by exactly one observation
step carrying the same tool name. -/
def actionsPaired : List ReActStep → Bool
  | [] => true
  | s :: rest =>
    if s.step_type == "action" then
      match rest with
      | [] => false
      | o :: rest2 =>
        (o.step_type == "observation") && (o.tool_name == s.tool_name) &&
          actionsPaired rest2
    else actionsPaired rest

/-- Is a parse result non-terminal (anything but a final answer)? -/
def nonTerminal : ParseResult → Bool
  | ParseResult.finalA _ => false
  | _ => true

/-- The model invocation at a given iteration and scratchpad succeeds and
its (stripped) reply does not parse as a final answer. -/
def okNonTerminal (A : Agent) (it : Nat) (pad : String) : Prop :=
  ∃ out, A.llm it pad = Except.ok out ∧ nonTerminal (parseCore (pyTrim out.toList)) = true

/-- Proof-side decomposition of a stretch of non-terminal iterations: the
steps they yield and the scratchpad they leave behind, mirroring the three
non-terminal branches of `goLoop` (the terminal branches are unreachable
under `okNonTerminal` and return junk).  It takes the model and the tools
directly, making it independent of the cancellation predicate by
construction. -/
def blocksFor (llm : Nat → String → Except String String)
    (tools : List (String × Tool)) : Nat → Nat → String → List ReActStep × String
  | 0, _, pad => ([], pad)
  | m + 1, it, pad =>
    match llm it pad with
    | Except.error _ => ([], pad)
    | Except.ok raw =>
      match parseCore (pyTrim raw.toList) with
      | ParseResult.finalA _ => ([], pad)
      | ParseResult.actionR th name inp =>
        let obs := execute_tool tools name inp
        let next := blocksFor llm tools m (it + 1) (padAfterAction pad th name inp obs)
        (actionBlock th name inp obs ++ next.1, next.2)
      | ParseResult.thoughtR th =>
        let next := blocksFor llm tools m (it + 1) (pad ++ "\nThought: " ++ th ++ "\n")
        (thoughtStep th :: next.1, next.2)
      | ParseResult.unknownR rawc =>
        blocksFor llm tools m (it + 1) (pad ++ "\n" ++ rawc ++ "\n")

/-! ## Properties of the redaction pass -/

mutual

/-- The source redaction agrees with the specification's description. -/
theorem clean_eq_spec : ∀ v : JValue, clean_email_data v = specRedact v
  | JValue.jnull => rfl
  | JValue.jbool _ => rfl
  | JValue.jnum _ => rfl
  | JValue.jstr _ => rfl
  | JValue.jarr xs => by
    rw [clean_email_data, specRedact, cleanList_eq_spec xs]
  | JValue.jobj kvs => by
    rw [clean_email_data, specRedact, cleanKVs_eq_spec kvs]

/-- List part of `clean_eq_spec`. -/
theorem cleanList_eq_spec : ∀ xs : List JValue, cleanList xs = specRedactList xs
  | [] => rfl
  | x :: xs => by
    rw [cleanList, specRedactList, clean_eq_spec x, cleanList_eq_spec xs]

/-- Mapping part of `clean_eq_spec`. -/
theorem cleanKVs_eq_spec : ∀ kvs : List (String × JValue),
    cleanKVs kvs = specRedactKVs kvs
  | [] => rfl
  | (k, JValue.jnull) :: rest => by
    rw [cleanKVs, specRedactKVs, cleanKVs_eq_spec rest]
    · rfl
    · intro _ h
      exact JValue.noConfusion h
    · intro _ h
      exact JValue.noConfusion h
  | (k, JValue.jbool b) :: rest => by
    rw [cleanKVs, specRedactKVs, cleanKVs_eq_spec rest]
    · rfl
    · intro _ h
      exact JValue.noConfusion h
    · intro _ h
      exact JValue.noConfusion h
  | (k, JValue.jnum s) :: rest => by
    rw [cleanKVs, specRedactKVs, cleanKVs_eq_spec rest]
    · rfl
    · intro _ h
      exact JValue.noConfusion h
    · intro _ h
      exact JValue.noConfusion h
  | (k, JValue.jstr s) :: rest => by
    rw [cleanKVs, specRedactKVs, cleanKVs_eq_spec rest]
    · rfl
    · intro _ h
      exact JValue.noConfusion h
    · intro _ h
      exact JValue.noConfusion h
  | (k, JValue.jarr xs) :: rest => by
    rw [cleanKVs, specRedactKVs, cleanKVs_eq_spec rest,
      clean_eq_spec (JValue.jarr xs)]
  | (k, JValue.jobj kvs2) :: rest => by
    rw [cleanKVs, specRedactKVs, cleanKVs_eq_spec rest,
      clean_eq_spec (JValue.jobj kvs2)]

end

mutual

/-- After redaction, the bulky key is absent at every depth. -/
theorem noBulky_spec : ∀ v : JValue, noBulky (specRedact v) = true
  | JValue.jnull => rfl
  | JValue.jbool _ => rfl
  | JValue.jnum _ => rfl
  | JValue.jstr _ => rfl
  | JValue.jarr xs => by
    rw [specRedact, noBulky]
    exact noBulkyList_spec xs
  | JValue.jobj kvs => by
    rw [specRedact, noBulky]
    exact noBulkyKVs_spec kvs

/-- List part of `noBulky_spec`. -/
theorem noBulkyList_spec : ∀ xs : List JValue, noBulkyList (specRedactList xs) = true
  | [] => rfl
  | x :: xs => by
    rw [specRedactList, noBulkyList, noBulky_spec x, noBulkyList_spec xs]
    rfl

/-- Mapping part of `noBulky_spec`. -/
theorem noBulkyKVs_spec : ∀ kvs : List (String × JValue),
    noBulkyKVs (specRedactKVs kvs) = true
  | [] => rfl
  | (k, v) :: rest => by
    rw [specRedactKVs]
    by_cases h : k = "body_html"
    · simp only [h, if_true]
      exact noBulkyKVs_spec rest
    · simp only [h, if_false, noBulkyKVs, noBulky_spec v, noBulkyKVs_spec rest]
      simp [h]

end

mutual

/-- The spec-side redaction is idempotent. -/
theorem specRedact_idem : ∀ v : JValue, specRedact (specRedact v) = specRedact v
  | JValue.jnull => rfl
  | JValue.jbool _ => rfl
  | JValue.jnum _ => rfl
  | JValue.jstr _ => rfl
  | JValue.jarr xs => by
    rw [specRedact, specRedact, specRedactList_idem xs]
  | JValue.jobj kvs => by
    rw [specRedact, specRedact, specRedactKVs_idem kvs]

/-- List part of `specRedact_idem`. -/
theorem specRedactList_idem : ∀ xs : List JValue,
    specRedactList (specRedactList xs) = specRedactList xs
  | [] => rfl
  | x :: xs => by
    rw [specRedactList, specRedactList, specRedact_idem x, specRedactList_idem xs]

/-- Mapping part of `specRedact_idem`. -/
theorem specRedactKVs_idem : ∀ kvs : List (String × JValue),
    specRedactKVs (specRedactKVs kvs) = specRedactKVs kvs
  | [] => rfl
  | (k, v) :: rest => by
    by_cases h : k = "body_html"
    · rw [specRedactKVs]
      simp only [h, if_true]
      exact specRedactKVs_idem rest
    · rw [specRedactKVs]
      simp only [h, if_false]
      rw [specRedactKVs]
      simp only [h, if_false]
      rw [specRedact_idem v, specRedactKVs_idem rest]

end

/-- The keys of a spec-redacted mapping are the original keys with
`body_html` filtered out, in order. -/
theorem specRedactKVs_keys : ∀ kvs : List (String × JValue),
    (specRedactKVs kvs).map Prod.fst =
      (kvs.map Prod.fst).filter (fun k => !(k == "body_html")) := by
  intro kvs
  induction kvs with
  | nil => rfl
  | cons kv rest ih =>
    obtain ⟨k, v⟩ := kv
    rw [specRedactKVs]
    by_cases h : k = "body_html"
    · have hb : (k == "body_html") = true := by simp [h]
      simp [h, List.filter, hb, ih]
    · have hb : (k == "body_html") = false := by simp [h]
      simp [h, List.filter, hb, ih]

/-- The keys of a redacted mapping are the original keys with `body_html`
filtered out, in order. -/
theorem cleanKVs_keys : ∀ kvs : List (String × JValue),
    (cleanKVs kvs).map Prod.fst =
      (kvs.map Prod.fst).filter (fun k => !(k == "body_html")) := by
  intro kvs
  rw [cleanKVs_eq_spec]
  exact specRedactKVs_keys kvs

/-- Redaction is invariant under a second pass. -/
theorem clean_email_data_idem (v : JValue) :
    clean_email_data (clean_email_data v) = clean_email_data v := by
  simp [clean_eq_spec, specRedact_idem]

/-- Claim C8: the redaction pass produces the structure the spec describes —
identical to the input except that `body_html` is absent at every mapping
depth (also inside nested sequences, `noBulky`), with every other entry kept
in order (`specRedact` recurses entry by entry in order, and the key list of
a redacted mapping is exactly the original key list with `body_html`
filtered out). -/
theorem c8_redaction_removes_only_body_html (v : JValue) :
    clean_email_data v = specRedact v ∧
    noBulky (clean_email_data v) = true ∧
    ∀ kvs : List (String × JValue),
      (cleanKVs kvs).map Prod.fst =
        (kvs.map Prod.fst).filter (fun k => !(k == "body_html")) := by
  refine ⟨clean_eq_spec v, ?_, cleanKVs_keys⟩
  rw [clean_eq_spec]
  exact noBulky_spec v

/-- Claim C9: the redaction pass is idempotent, and on any value that is
neither a mapping nor a sequence it is the identity. -/
theorem c9_redaction_idempotent (v : JValue) :
    clean_email_data (clean_email_data v) = clean_email_data v ∧
    (isContainer v = false → clean_email_data v = v) := by
  refine ⟨clean_email_data_idem v, fun h => ?_⟩
  cases v with
  | jarr xs => simp [isContainer] at h
  | jobj kvs => simp [isContainer] at h
  | jnull => rfl
  | jbool b => rfl
  | jnum s => rfl
  | jstr s => rfl

/-- Witness for C9 at a concrete non-container input. -/
theorem c9_redaction_idempotent_witness :
    clean_email_data (JValue.jstr ("hello")) = JValue.jstr ("hello") :=
  (c9_redaction_idempotent (JValue.jstr ("hello"))).2 rfl

/-- Claim C10: the cancellation terminal step and the cap-reached terminal
step both carry the kind `final_answer` — the same kind as a genuine model
final answer — and differ from it only in their content text, while a model
invocation failure is the only terminal step of kind `error`. -/
theorem c10_terminal_step_kinds (n : Nat) (e c : String) :
    cancelStep.step_type = "final_answer" ∧
    (timeoutStep n).step_type = "final_answer" ∧
    (finalStep c).step_type = "final_answer" ∧
    (errorStep e).step_type = "error" ∧
    cancelStep.step_type ≠ (errorStep e).step_type ∧
    cancelStep.content ≠ (timeoutStep n).content := by
  refine ⟨rfl, rfl, rfl, rfl, fun hh => ?_, fun h => ?_⟩
  · have h3 : "final_answer" = "error" := hh
    exact absurd h3 (by decide)
  have h2 : "Task cancelled by user" = capContent n := h
  have hl := congrArg String.length h2
  rw [capContent, String.length_append, String.length_append] at hl
  have hx : ("Task cancelled by user").length = 22 := by decide
  have hy : 22 < ("I've reached the maximum number of reasoning steps (").length := by
    decide
  omega

/-! ## General helper lemmas for the loop and dispatcher claims -/

/-- `countType` distributes over append. -/
theorem countType_append (t : String) (a b : List ReActStep) :
    countType t (a ++ b) = countType t a + countType t b := by
  induction a with
  | nil => simp [countType]
  | cons s rest ih => simp [countType, ih]; omega

/-- `leadsWith` holds of any extension of the pattern itself. -/
theorem leadsWith_self_append (p r : List Char) : leadsWith p (p ++ r) = true := by
  induction p with
  | nil => rfl
  | cons c cs ih => simp [leadsWith, ih]

/-- A string containing the pattern as an explicit inner part satisfies
`hasSub`. -/
theorem hasSub_of_split (pat a r : List Char) :
    hasSub pat (a ++ (pat ++ r)) = true := by
  induction a with
  | nil =>
    rw [List.nil_append]
    cases hp : pat ++ r with
    | nil =>
      have hpe : pat = [] := by
        cases pat with
        | nil => rfl
        | cons p ps => simp at hp
      rw [hpe]
      rfl
    | cons c cs =>
      rw [hasSub, ← hp, leadsWith_self_append, Bool.true_or]
  | cons c cs ih =>
    rw [List.cons_append, hasSub, ih, Bool.or_true]

/-- `getLast?` of an append with a nonempty right part. -/
theorem getLast?_append_some {α : Type} (a b : List α) (x : α)
    (h : b.getLast? = some x) : (a ++ b).getLast? = some x := by
  induction a with
  | nil => exact h
  | cons c cs ih =>
    have hne : cs ++ b ≠ [] := by
      intro habs
      rcases List.append_eq_nil.mp habs with ⟨-, hb⟩
      rw [hb] at h
      exact Option.noConfusion h
    obtain ⟨y, ys, hys⟩ := List.exists_cons_of_ne_nil hne
    rw [List.cons_append, hys, List.getLast?_cons_cons, ← hys, ih]

/-- `String.toList` of an append. -/
theorem toList_append (a b : String) : (a ++ b).toList = a.toList ++ b.toList := by
  cases a with
  | mk da =>
    cases b with
    | mk db => rfl

/-! ## Parser claims -/

/-- A case-variant of a marker matches case-insensitively, with anything
following. -/
theorem startsWithCI_of_map (m b mk : List Char) (hm : m.map lowerA = mk) :
    startsWithCI (m ++ b) mk = true := by
  induction m generalizing mk with
  | nil =>
    rw [← hm]
    simp [startsWithCI]
  | cons c cs ih =>
    rw [← hm]
    have h2 : startsWithCI ((c :: cs) ++ b) (List.map lowerA (c :: cs)) =
        (lowerA c == lowerA c && startsWithCI (cs ++ b) (List.map lowerA cs)) := rfl
    rw [h2, ih (cs.map lowerA) rfl]
    simp

/-- `findAfterCI` finds the marker at the split point when nothing matches
earlier. -/
theorem findAfterCI_at (mk a m b : List Char) (hmk : mk ≠ [])
    (hm : m.map lowerA = mk)
    (hleft : ∀ i, i < a.length →
      startsWithCI (List.drop i (a ++ (m ++ b))) mk = false) :
    findAfterCI mk (a ++ (m ++ b)) = some b := by
  induction a with
  | nil =>
    rw [List.nil_append]
    have hlen : m.length = mk.length := by
      rw [← hm, List.length_map]
    have hmne : m ≠ [] := by
      intro habs
      rw [habs] at hm
      exact hmk hm.symm
    obtain ⟨c, cs, hcs⟩ := List.exists_cons_of_ne_nil hmne
    have hsw : startsWithCI (m ++ b) mk = true := startsWithCI_of_map m b mk hm
    rw [hcs, List.cons_append, findAfterCI]
    rw [hcs, List.cons_append] at hsw
    rw [hsw]
    simp only [if_true]
    rw [← List.cons_append, ← hcs, ← hlen, List.drop_left]
  | cons c cs ih =>
    have h0 : startsWithCI (c :: (cs ++ (m ++ b))) mk = false := by
      have := hleft 0 (by simp)
      simpa using this
    rw [List.cons_append, findAfterCI, h0]
    simp only [Bool.false_eq_true, if_false]
    refine ih fun i hi => ?_
    have := hleft (i + 1) (by simp; omega)
    simpa [List.drop_succ_cons] using this

/-- Soundness of `findAfterCI`: a hit names an actual occurrence. -/
theorem findAfterCI_some (mk t suf : List Char)
    (h : findAfterCI mk t = some suf) :
    ∃ i, i < t.length ∧ startsWithCI (List.drop i t) mk = true ∧
      suf = List.drop (i + mk.length) t := by
  induction t with
  | nil => exact Option.noConfusion h
  | cons c cs ih =>
    rw [findAfterCI] at h
    by_cases hc : startsWithCI (c :: cs) mk = true
    · rw [hc] at h
      simp only [if_true] at h
      refine ⟨0, by simp, by simpa using hc, ?_⟩
      simpa [List.drop_zero] using (Option.some.injEq _ _ ▸ h).symm
    · have hc' : startsWithCI (c :: cs) mk = false := by
        cases hcc : startsWithCI (c :: cs) mk with
        | true => exact absurd hcc hc
        | false => rfl
      rw [hc'] at h
      simp only [Bool.false_eq_true, if_false] at h
      obtain ⟨i, hi, hsw, hsuf⟩ := ih h
      refine ⟨i + 1, by simp; omega, ?_, ?_⟩
      · rw [List.drop_succ_cons]
        exact hsw
      · have : i + 1 + mk.length = (i + mk.length) + 1 := by omega
        rw [this, List.drop_succ_cons]
        exact hsuf

/-- Claim C1: any reply containing a case-insensitive `Final Answer:`
marker (a case-variant `m` of the marker at the leftmost occurrence,
i.e. no earlier position matches) followed by at least one character is
parsed as a final answer whose content is the whole text after the marker,
trimmed — whatever `Action:` or `Thought:` markers the text also contains
(the prefix `a` and suffix `b` are arbitrary, and the result is produced by
the terminal check alone). -/
theorem c1_final_answer_precedence (a m b : List Char)
    (hm : m.map lowerA = finalMarker)
    (hb : b ≠ [])
    (hleft : ∀ i, i < a.length →
      startsWithCI (List.drop i (a ++ (m ++ b))) finalMarker = false) :
    parseCore (a ++ (m ++ b)) = ParseResult.finalA (pyTrim b).asString := by
  have hfind : findAfterCI finalMarker (a ++ (m ++ b)) = some b :=
    findAfterCI_at finalMarker a m b (by decide) hm hleft
  have hbe : b.isEmpty = false := by
    cases b with
    | nil => exact absurd rfl hb
    | cons x xs => rfl
  have hfc : finalCheck (a ++ (m ++ b)) = some (pyTrim b) := by
    rw [finalCheck, hfind]
    simp [hbe]
  rw [parseCore, hfc]

/-- Witness for C1: a reply with thought and action markers and an
upper-case terminal marker parses as the trimmed final answer. -/
theorem c1_final_answer_precedence_witness :
    parseCore ("Thought: t\nAction: go\n".toList ++
      ("Final ANSWER:".toList ++ "  42 ".toList)) = ParseResult.finalA ("42") :=
  (c1_final_answer_precedence ("Thought: t\nAction: go\n".toList)
    ("Final ANSWER:".toList) ("  42 ".toList) (by decide) (by decide)
    (by decide)).trans rfl

/-- Under `inputUndecodable`, the parser's input falls back to the empty
map. -/
theorem decodeInput_of_undecodable (text : List Char)
    (hu : inputUndecodable text = true) :
    decodeInput text = JValue.jobj [] := by
  rw [inputUndecodable] at hu
  rw [decodeInput]
  cases hext : extractJsonStr text with
  | none => simp
  | some js =>
    rw [hext] at hu
    simp only [Bool.and_eq_true, Option.isNone_iff_eq_none] at hu
    obtain ⟨h1, h2⟩ := hu
    simp [h1, h2]

/-- Claim C6: a reply in the action branch (no terminal marker with content
anywhere — the parser's documented precedence) whose `Action:` marker
yields a (nonempty, cleaned) name `n` and whose `Action Input:` block is
absent, empty or undecodable even after the repair pass parses as an
Action carrying exactly that name and the empty input map.  The parser is a
total function, so no exception is possible. -/
theorem c6_action_empty_input_fallback (text : List Char) (n : String)
    (hf : ∀ i, i < text.length →
      startsWithCI (List.drop i text) finalMarker = false ∨
      List.drop (i + finalMarker.length) text = [])
    (ha : actionNameOf text = some n)
    (hu : inputUndecodable text = true) :
    parseCore text = ParseResult.actionR (thoughtOf text) n (JValue.jobj []) := by
  have hfc : finalCheck text = none := by
    rw [finalCheck]
    cases hfind : findAfterCI finalMarker text with
    | none => rfl
    | some suf =>
      obtain ⟨i, hi, hsw, hsuf⟩ := findAfterCI_some finalMarker text suf hfind
      rcases hf i hi with hcase | hcase
      · rw [hsw] at hcase
        exact Bool.noConfusion hcase
      · rw [hsuf, hcase]
        rfl
  rw [parseCore, hfc, ha, decodeInput_of_undecodable text hu]

/-- Witness for C6: an action whose input block is garbled even after
repair comes back with its name and the empty map. -/
theorem c6_action_empty_input_fallback_witness :
    parseCore ("Action: foo\nAction Input: \x7bgarbage\x7d".toList) =
      ParseResult.actionR (thoughtOf ("Action: foo\nAction Input: \x7bgarbage\x7d".toList))
        "foo" (JValue.jobj []) :=
  c6_action_empty_input_fallback ("Action: foo\nAction Input: \x7bgarbage\x7d".toList)
    "foo" (by decide) (by decide) (by decide)

/-- Counterexample to C5 as frozen: on the single-quoted payload
`{'ok': True, 'v': None}` the repair pass normalizes the literals but the
payload is still not valid JSON (single-quoted keys), so the retry fails
and the parser falls back to the empty map — not to
`{"ok": true, "v": null}`. -/
theorem c5_single_quotes_counterexample :
    jsonLoads (repairJson ("\x7b'ok': True, 'v': None\x7d".toList)) = none ∧
    parseCore ("Action: foo\nAction Input: \x7b'ok': True, 'v': None\x7d".toList) =
      ParseResult.actionR ("") ("foo") (JValue.jobj []) ∧
    JValue.jobj [] ≠
      JValue.jobj [("ok", JValue.jbool true), ("v", JValue.jnull)] := by
  refine ⟨rfl, rfl, fun h => ?_⟩
  injection h with h2
  exact List.noConfusion h2

/-- Claim C5 as amended: for the payload `{"ok": True, "v": None}` — the
non-canonical Python literal spellings, with JSON (double-quoted) keys —
strict decoding fails, the repair pass rewrites the literals, and the retry
yields the input map `{"ok": true, "v": null}`. -/
theorem c5_repair_pass_amended :
    jsonLoads ("\x7b\"ok\": True, \"v\": None\x7d".toList) = none ∧
    repairJson ("\x7b\"ok\": True, \"v\": None\x7d".toList) =
      ("\x7b\"ok\": true, \"v\": null\x7d".toList) ∧
    parseCore ("Action: foo\nAction Input: \x7b\"ok\": True, \"v\": None\x7d".toList) =
      ParseResult.actionR ("") ("foo")
        (JValue.jobj [("ok", JValue.jbool true), ("v", JValue.jnull)]) :=
  ⟨rfl, rfl, rfl⟩

/-! ## Branch lemmas for the loop -/

/-- Cancellation branch of an iteration (source lines 308-319). -/
theorem goLoop_succ_cancel (A : Agent) (N fuel it : Nat) (pad : String)
    (hc : A.cancel it = true) :
    goLoop A N (fuel + 1) it pad = ([cancelStep], "Task cancelled by user") := by
  rw [goLoop]
  simp [hc]

/-- Model-failure branch of an iteration (source lines 350-378). -/
theorem goLoop_succ_error (A : Agent) (N fuel it : Nat) (pad : String) (e : String)
    (hc : A.cancel it = false) (hl : A.llm it pad = Except.error e) :
    goLoop A N (fuel + 1) it pad = ([errorStep e], errorContent e) := by
  rw [goLoop]
  simp [hc, hl]

/-- Final-answer branch of an iteration (source lines 383-393). -/
theorem goLoop_succ_final (A : Agent) (N fuel it : Nat) (pad raw c : String)
    (hc : A.cancel it = false) (hl : A.llm it pad = Except.ok raw)
    (hp : parseCore (pyTrim raw.toList) = ParseResult.finalA c) :
    goLoop A N (fuel + 1) it pad = ([finalStep c], c) := by
  rw [goLoop]
  have hp2 : parseCore (pyTrim raw.data) = ParseResult.finalA c := hp
  simp [hc, hl, hp2]

/-- Action branch of an iteration (source lines 395-446). -/
theorem goLoop_succ_action (A : Agent) (N fuel it : Nat) (pad raw th name : String)
    (inp : JValue)
    (hc : A.cancel it = false) (hl : A.llm it pad = Except.ok raw)
    (hp : parseCore (pyTrim raw.toList) = ParseResult.actionR th name inp) :
    goLoop A N (fuel + 1) it pad =
      (actionBlock th name inp (execute_tool A.tools name inp) ++
        (goLoop A N fuel (it + 1)
          (padAfterAction pad th name inp (execute_tool A.tools name inp))).1,
       (goLoop A N fuel (it + 1)
          (padAfterAction pad th name inp (execute_tool A.tools name inp))).2) := by
  rw [goLoop]
  have hp2 : parseCore (pyTrim raw.data) = ParseResult.actionR th name inp := hp
  simp [hc, hl, hp2]

/-- Thought branch of an iteration (source lines 448-459). -/
theorem goLoop_succ_thought (A : Agent) (N fuel it : Nat) (pad raw th : String)
    (hc : A.cancel it = false) (hl : A.llm it pad = Except.ok raw)
    (hp : parseCore (pyTrim raw.toList) = ParseResult.thoughtR th) :
    goLoop A N (fuel + 1) it pad =
      (thoughtStep th :: (goLoop A N fuel (it + 1) (pad ++ "\nThought: " ++ th ++ "\n")).1,
       (goLoop A N fuel (it + 1) (pad ++ "\nThought: " ++ th ++ "\n")).2) := by
  rw [goLoop]
  have hp2 : parseCore (pyTrim raw.data) = ParseResult.thoughtR th := hp
  simp [hc, hl, hp2]

/-- Unrecognized branch of an iteration (source lines 461-464). -/
theorem goLoop_succ_unknown (A : Agent) (N fuel it : Nat) (pad raw rawc : String)
    (hc : A.cancel it = false) (hl : A.llm it pad = Except.ok raw)
    (hp : parseCore (pyTrim raw.toList) = ParseResult.unknownR rawc) :
    goLoop A N (fuel + 1) it pad =
      goLoop A N fuel (it + 1) (pad ++ "\n" ++ rawc ++ "\n") := by
  rw [goLoop]
  have hp2 : parseCore (pyTrim raw.data) = ParseResult.unknownR rawc := hp
  simp [hc, hl, hp2]

/-! ## Step-count and pairing lemmas -/

/-- `actionsPaired` skips a leading thought step. -/
theorem actionsPaired_thought_cons (th : String) (rest : List ReActStep) :
    actionsPaired (thoughtStep th :: rest) = actionsPaired rest := by
  cases rest with
  | nil => rfl
  | cons o rest2 => rfl

/-- `actionsPaired` consumes an action step together with its observation
step. -/
theorem actionsPaired_action_cons (name : String) (inp : JValue) (obs : String)
    (rest : List ReActStep) :
    actionsPaired (actionStep name inp :: obsStep name obs :: rest) =
      actionsPaired rest := by
  have h1 : (("action" : String) == "action") = true := by decide
  have h2 : (("observation" : String) == "observation") = true := by decide
  simp [actionsPaired, actionStep, obsStep, h1, h2]

/-- `actionsPaired` over an action block followed by anything. -/
theorem actionsPaired_block (th name : String) (inp : JValue) (obs : String)
    (rest : List ReActStep) :
    actionsPaired (actionBlock th name inp obs ++ rest) = actionsPaired rest := by
  by_cases h : th = ""
  · simp only [actionBlock, h, if_true, List.nil_append, List.cons_append]
    exact actionsPaired_action_cons name inp obs rest
  · simp only [actionBlock, h, if_false, List.cons_append, List.nil_append]
    rw [actionsPaired_thought_cons]
    exact actionsPaired_action_cons name inp obs rest

/-- Counts of each step kind inside an action block. -/
theorem countType_actionBlock (th name : String) (inp : JValue) (obs : String) :
    countType ("action") (actionBlock th name inp obs) = 1 ∧
    countType ("observation") (actionBlock th name inp obs) = 1 ∧
    countType ("final_answer") (actionBlock th name inp obs) = 0 ∧
    countType ("error") (actionBlock th name inp obs) = 0 := by
  by_cases h : th = "" <;>
    refine ⟨?_, ?_, ?_, ?_⟩ <;>
    simp [actionBlock, h, countType, thoughtStep, actionStep, obsStep]

/-! ## Claim C7: unknown action names -/

/-- Claim C7: dispatching an action name absent from the catalog returns —
without raising (the dispatcher is a total function) — the bounded error
string that carries the unregistered name verbatim and the catalog listing
truncated to 200 characters; and an action iteration (whatever its name)
always continues into the next loop iteration rather than terminating the
run. -/
theorem c7_unknown_tool_error_string (tm : List (String × Tool)) (name : String)
    (inp : JValue) (h : lookupTool tm name = none) :
    execute_tool tm name inp =
      "Error: Tool '" ++ name ++ "' not found. Available tools: " ++
        ((joinComma (tm.map Prod.fst)).take 200) ++ "..." ∧
    hasSub name.toList (execute_tool tm name inp).toList = true ∧
    ∀ (A : Agent) (N fuel it : Nat) (pad raw th : String),
      A.cancel it = false → A.llm it pad = Except.ok raw →
      parseCore (pyTrim raw.toList) = ParseResult.actionR th name inp →
      goLoop A N (fuel + 1) it pad =
        (actionBlock th name inp (execute_tool A.tools name inp) ++
          (goLoop A N fuel (it + 1)
            (padAfterAction pad th name inp (execute_tool A.tools name inp))).1,
         (goLoop A N fuel (it + 1)
            (padAfterAction pad th name inp (execute_tool A.tools name inp))).2) := by
  have h1 : execute_tool tm name inp =
      "Error: Tool '" ++ name ++ "' not found. Available tools: " ++
        ((joinComma (tm.map Prod.fst)).take 200) ++ "..." := by
    rw [execute_tool, h]
  refine ⟨h1, ?_, ?_⟩
  · rw [h1]
    simp only [toList_append, List.append_assoc]
    exact hasSub_of_split name.toList ("Error: Tool '".toList) _
  · intro A N fuel it pad raw th hc hl hp
    exact goLoop_succ_action A N fuel it pad raw th name inp hc hl hp

/-- Witness for C7: a one-tool catalog dispatched with an unknown name. -/
theorem c7_unknown_tool_error_string_witness :
    execute_tool [("real", Tool.mk (fun _ => Except.ok JValue.jnull))] ("ghost")
        (JValue.jobj []) =
      "Error: Tool 'ghost' not found. Available tools: real..." :=
  ((c7_unknown_tool_error_string
    [("real", Tool.mk (fun _ => Except.ok JValue.jnull))] ("ghost")
    (JValue.jobj []) rfl).1).trans rfl

/-! ## Claim C3: observation count equals action count -/

/-- For every fuel, iteration counter and scratchpad, the loop emits as many
observation steps as action steps, each observation immediately after its
action. -/
theorem goLoop_obs_eq_action (A : Agent) (N : Nat) :
    ∀ fuel it pad,
      countType ("observation") (goLoop A N fuel it pad).1 =
        countType ("action") (goLoop A N fuel it pad).1 ∧
      actionsPaired (goLoop A N fuel it pad).1 = true := by
  intro fuel
  induction fuel with
  | zero =>
    intro it pad
    exact ⟨rfl, rfl⟩
  | succ fuel ih =>
    intro it pad
    cases hc : A.cancel it with
    | true =>
      rw [goLoop_succ_cancel A N fuel it pad hc]
      exact ⟨rfl, rfl⟩
    | false =>
      cases hl : A.llm it pad with
      | error e =>
        rw [goLoop_succ_error A N fuel it pad e hc hl]
        exact ⟨rfl, rfl⟩
      | ok raw =>
        cases hp : parseCore (pyTrim raw.toList) with
        | finalA c =>
          rw [goLoop_succ_final A N fuel it pad raw c hc hl hp]
          exact ⟨rfl, rfl⟩
        | actionR th name inp =>
          rw [goLoop_succ_action A N fuel it pad raw th name inp hc hl hp]
          obtain ⟨ih1, ih2⟩ :=
            ih (it + 1) (padAfterAction pad th name inp (execute_tool A.tools name inp))
          obtain ⟨ca, co, -, -⟩ :=
            countType_actionBlock th name inp (execute_tool A.tools name inp)
          refine ⟨?_, ?_⟩
          · rw [countType_append, countType_append, ca, co, ih1]
          · rw [actionsPaired_block]
            exact ih2
        | thoughtR th =>
          rw [goLoop_succ_thought A N fuel it pad raw th hc hl hp]
          obtain ⟨ih1, ih2⟩ := ih (it + 1) (pad ++ "\nThought: " ++ th ++ "\n")
          refine ⟨?_, ?_⟩
          · rw [countType, countType, ih1]
            rfl
          · rw [actionsPaired_thought_cons]
            exact ih2
        | unknownR rawc =>
          rw [goLoop_succ_unknown A N fuel it pad raw rawc hc hl hp]
          exact ih (it + 1) (pad ++ "\n" ++ rawc ++ "\n")

/-- Claim C3: in every run of `run_streaming` — whether it ends by final
answer, cap, cancellation or model-invocation error, and whatever the
model, tools and cancellation predicate do — the number of emitted
Observation steps equals the number of emitted Action steps, and every
emitted Action step is immediately followed by its Observation step (same
tool name) before any later step. -/
theorem c3_observation_matches_action (A : Agent) (N : Nat) :
    countType ("observation") (run_streaming A N).1 =
      countType ("action") (run_streaming A N).1 ∧
    actionsPaired (run_streaming A N).1 = true := by
  rw [run_streaming]
  exact goLoop_obs_eq_action A N N 1 ""

/-! ## Claim C2: exact cap behaviour under an always-action model -/

/-- When cancellation is never requested and every reply parses as an
action, the loop with `fuel` iterations left emits exactly `fuel` action
steps, each immediately followed by its observation, no error step, and
exactly one final-answer step — the cap notice — as its last element, and
returns the cap content. -/
theorem goLoop_all_actions (A : Agent) (N : Nat)
    (hc : ∀ k, A.cancel k = false)
    (hm : ∀ k pad, ∃ out th name inp, A.llm k pad = Except.ok out ∧
          parseCore (pyTrim out.toList) = ParseResult.actionR th name inp) :
    ∀ fuel it pad,
      countType ("action") (goLoop A N fuel it pad).1 = fuel ∧
      countType ("observation") (goLoop A N fuel it pad).1 = fuel ∧
      countType ("final_answer") (goLoop A N fuel it pad).1 = 1 ∧
      countType ("error") (goLoop A N fuel it pad).1 = 0 ∧
      actionsPaired (goLoop A N fuel it pad).1 = true ∧
      (goLoop A N fuel it pad).1.getLast? = some (timeoutStep N) ∧
      (goLoop A N fuel it pad).2 = capContent N := by
  intro fuel
  induction fuel with
  | zero =>
    intro it pad
    exact ⟨rfl, rfl, rfl, rfl, rfl, rfl, rfl⟩
  | succ fuel ih =>
    intro it pad
    obtain ⟨out, th, name, inp, hl, hp⟩ := hm it pad
    rw [goLoop_succ_action A N fuel it pad out th name inp (hc it) hl hp]
    obtain ⟨ih1, ih2, ih3, ih4, ih5, ih6, ih7⟩ :=
      ih (it + 1) (padAfterAction pad th name inp (execute_tool A.tools name inp))
    obtain ⟨ca, co, cf, ce⟩ :=
      countType_actionBlock th name inp (execute_tool A.tools name inp)
    refine ⟨?_, ?_, ?_, ?_, ?_, ?_, ih7⟩
    · rw [countType_append, ca, ih1]
      omega
    · rw [countType_append, co, ih2]
      omega
    · rw [countType_append, cf, ih3]
    · rw [countType_append, ce, ih4]
    · rw [actionsPaired_block]
      exact ih5
    · exact getLast?_append_some _ _ _ ih6

/-- Claim C2: for any cap `N`, if every model reply parses as an action
(never a terminal marker; the completion sentinel only annotates the
prompt, so the result holds a fortiori when no observation carries it) and
cancellation is never requested, `run_streaming` emits exactly `N` Action
steps, each immediately followed by its Observation step, no error step,
and exactly one terminal step — the cap-reached notice, which is the last
step emitted — and then terminates returning the cap content; so no
`(N+1)`-th iteration begins. -/
theorem c2_cap_reached_exactly (A : Agent) (N : Nat)
    (hc : ∀ k, A.cancel k = false)
    (hm : ∀ k pad, ∃ out th name inp, A.llm k pad = Except.ok out ∧
          parseCore (pyTrim out.toList) = ParseResult.actionR th name inp) :
    countType ("action") (run_streaming A N).1 = N ∧
    countType ("observation") (run_streaming A N).1 = N ∧
    countType ("final_answer") (run_streaming A N).1 = 1 ∧
    countType ("error") (run_streaming A N).1 = 0 ∧
    actionsPaired (run_streaming A N).1 = true ∧
    (run_streaming A N).1.getLast? = some (timeoutStep N) ∧
    (run_streaming A N).2 = capContent N := by
  rw [run_streaming]
  exact goLoop_all_actions A N hc hm N 1 ""

/-- A model that always answers with the same action request, an empty
catalog, and no cancellation. -/
def alwaysActionAgent : Agent :=
  { llm := fun _ _ => Except.ok ("Action: t\nAction Input: \x7b\x7d"),
    tools := [], cancel := fun _ => false }

/-- Witness for C2 at cap 2. -/
theorem c2_cap_reached_exactly_witness :
    countType ("action") (run_streaming alwaysActionAgent 2).1 = 2 ∧
    countType ("observation") (run_streaming alwaysActionAgent 2).1 = 2 ∧
    countType ("final_answer") (run_streaming alwaysActionAgent 2).1 = 1 ∧
    countType ("error") (run_streaming alwaysActionAgent 2).1 = 0 ∧
    actionsPaired (run_streaming alwaysActionAgent 2).1 = true ∧
    (run_streaming alwaysActionAgent 2).1.getLast? = some (timeoutStep 2) ∧
    (run_streaming alwaysActionAgent 2).2 = capContent 2 :=
  c2_cap_reached_exactly alwaysActionAgent 2 (fun _ => rfl)
    (fun _ _ => ⟨"Action: t\nAction Input: \x7b\x7d", "", "t", JValue.jobj [],
      rfl, rfl⟩)

/-! ## Claim C4: cooperative cancellation at an iteration boundary -/

/-- Action branch of `blocksFor`. -/
theorem blocksFor_succ_action (llm : Nat → String → Except String String)
    (tools : List (String × Tool)) (m it : Nat) (pad out th name : String)
    (inp : JValue) (hl : llm it pad = Except.ok out)
    (hp : parseCore (pyTrim out.toList) = ParseResult.actionR th name inp) :
    blocksFor llm tools (m + 1) it pad =
      (actionBlock th name inp (execute_tool tools name inp) ++
        (blocksFor llm tools m (it + 1)
          (padAfterAction pad th name inp (execute_tool tools name inp))).1,
       (blocksFor llm tools m (it + 1)
          (padAfterAction pad th name inp (execute_tool tools name inp))).2) := by
  rw [blocksFor]
  have hp2 : parseCore (pyTrim out.data) = ParseResult.actionR th name inp := hp
  simp [hl, hp2]

/-- Thought branch of `blocksFor`. -/
theorem blocksFor_succ_thought (llm : Nat → String → Except String String)
    (tools : List (String × Tool)) (m it : Nat) (pad out th : String)
    (hl : llm it pad = Except.ok out)
    (hp : parseCore (pyTrim out.toList) = ParseResult.thoughtR th) :
    blocksFor llm tools (m + 1) it pad =
      (thoughtStep th ::
        (blocksFor llm tools m (it + 1) (pad ++ "\nThought: " ++ th ++ "\n")).1,
       (blocksFor llm tools m (it + 1) (pad ++ "\nThought: " ++ th ++ "\n")).2) := by
  rw [blocksFor]
  have hp2 : parseCore (pyTrim out.data) = ParseResult.thoughtR th := hp
  simp [hl, hp2]

/-- Unrecognized branch of `blocksFor`. -/
theorem blocksFor_succ_unknown (llm : Nat → String → Except String String)
    (tools : List (String × Tool)) (m it : Nat) (pad out rawc : String)
    (hl : llm it pad = Except.ok out)
    (hp : parseCore (pyTrim out.toList) = ParseResult.unknownR rawc) :
    blocksFor llm tools (m + 1) it pad =
      blocksFor llm tools m (it + 1) (pad ++ "\n" ++ rawc ++ "\n") := by
  rw [blocksFor]
  have hp2 : parseCore (pyTrim out.data) = ParseResult.unknownR rawc := hp
  simp [hl, hp2]

/-- Dropping the last element of an appended singleton. -/
theorem dropLast_append_single {α : Type} (l : List α) (a : α) :
    (l ++ [a]).dropLast = l := by
  simp

/-- Unfolding a stretch of `m` non-terminal, non-cancelled iterations: the
run emits exactly the blocks of those iterations, then continues at
iteration `it + m` with the scratchpad they produced. -/
theorem goLoop_decomp (A : Agent) (N : Nat) :
    ∀ m it pad s,
      (∀ j, j < it + m → it ≤ j → A.cancel j = false) →
      (∀ j pad2, j < it + m → it ≤ j → okNonTerminal A j pad2) →
      goLoop A N (m + s) it pad =
        ((blocksFor A.llm A.tools m it pad).1 ++
          (goLoop A N s (it + m) (blocksFor A.llm A.tools m it pad).2).1,
         (goLoop A N s (it + m) (blocksFor A.llm A.tools m it pad).2).2) := by
  intro m
  induction m with
  | zero =>
    intro it pad s _ _
    rw [Nat.zero_add]
    simp [blocksFor]
  | succ m ih =>
    intro it pad s hcan hnt
    have hcit : A.cancel it = false := hcan it (by omega) (Nat.le_refl it)
    obtain ⟨out, hl, hout⟩ := hnt it pad (by omega) (Nat.le_refl it)
    have hms : m + 1 + s = (m + s) + 1 := by omega
    rw [hms]
    have hshift1 : ∀ j, j < (it + 1) + m → it + 1 ≤ j → A.cancel j = false :=
      fun j h2 h1 => hcan j (by omega) (by omega)
    have hshift2 : ∀ j pad2, j < (it + 1) + m → it + 1 ≤ j → okNonTerminal A j pad2 :=
      fun j pad2 h2 h1 => hnt j pad2 (by omega) (by omega)
    have hitm : it + 1 + m = it + (m + 1) := by omega
    cases hp : parseCore (pyTrim out.toList) with
    | finalA c =>
      rw [hp] at hout
      simp [nonTerminal] at hout
    | actionR th name inp =>
      rw [goLoop_succ_action A N (m + s) it pad out th name inp hcit hl hp]
      rw [blocksFor_succ_action A.llm A.tools m it pad out th name inp hl hp]
      rw [ih (it + 1) (padAfterAction pad th name inp (execute_tool A.tools name inp))
        s hshift1 hshift2]
      rw [hitm]
      simp [List.append_assoc]
    | thoughtR th =>
      rw [goLoop_succ_thought A N (m + s) it pad out th hcit hl hp]
      rw [blocksFor_succ_thought A.llm A.tools m it pad out th hl hp]
      rw [ih (it + 1) (pad ++ "\nThought: " ++ th ++ "\n") s hshift1 hshift2]
      rw [hitm]
      simp
    | unknownR rawc =>
      rw [goLoop_succ_unknown A N (m + s) it pad out rawc hcit hl hp]
      rw [blocksFor_succ_unknown A.llm A.tools m it pad out rawc hl hp]
      rw [ih (it + 1) (pad ++ "\n" ++ rawc ++ "\n") s hshift1 hshift2]
      rw [hitm]

/-- Claim C4: if the run reaches the cancellation check at the top of
iteration `k` (iterations `1..k-1` are non-terminal and not cancelled, and
`k ≤ N`) and the predicate is true there, the run emits exactly the steps
of iterations before `k` — unchanged: they are the steps of the same-model
no-cancellation run with cap `k-1` minus that run's cap notice — then
exactly one terminal cancellation-notice step, and ends with the
cancellation answer; no step of iteration `k` or later is emitted. -/
theorem c4_cancellation_boundary (A : Agent) (N k : Nat)
    (hk1 : 1 ≤ k) (hkN : k ≤ N)
    (hcl : ∀ j, j < k → 1 ≤ j → A.cancel j = false)
    (hck : A.cancel k = true)
    (hnt : ∀ j pad, j < k → 1 ≤ j → okNonTerminal A j pad) :
    (run_streaming (noCancel A) (k - 1)).1.getLast? = some (timeoutStep (k - 1)) ∧
    run_streaming A N =
      ((run_streaming (noCancel A) (k - 1)).1.dropLast ++ [cancelStep],
       "Task cancelled by user") := by
  have hdec := goLoop_decomp A N (k - 1) 1 "" (N - (k - 1))
    (fun j h2 h1 => hcl j (by omega) h1)
    (fun j pad2 h2 h1 => hnt j pad2 (by omega) h1)
  have hNk : (k - 1) + (N - (k - 1)) = N := by omega
  rw [hNk] at hdec
  have h1k : 1 + (k - 1) = k := by omega
  rw [h1k] at hdec
  obtain ⟨s', hs'⟩ : ∃ s', N - (k - 1) = s' + 1 := ⟨N - (k - 1) - 1, by omega⟩
  rw [hs'] at hdec
  rw [goLoop_succ_cancel A N s' k (blocksFor A.llm A.tools (k - 1) 1 "").2 hck] at hdec
  have hdec2 := goLoop_decomp (noCancel A) (k - 1) (k - 1) 1 "" 0
    (fun j _ _ => rfl)
    (fun j pad2 h2 h1 => hnt j pad2 (by omega) h1)
  rw [Nat.add_zero] at hdec2
  have hBll : (noCancel A).llm = A.llm := rfl
  have hBtl : (noCancel A).tools = A.tools := rfl
  rw [hBll, hBtl] at hdec2
  have hcap : goLoop (noCancel A) (k - 1) 0 (1 + (k - 1))
      (blocksFor A.llm A.tools (k - 1) 1 "").2 =
      ([timeoutStep (k - 1)], capContent (k - 1)) := rfl
  rw [hcap] at hdec2
  constructor
  · rw [run_streaming, hdec2]
    exact getLast?_append_some _ _ _ rfl
  · rw [run_streaming, hdec, run_streaming, hdec2]
    rw [dropLast_append_single]

/-- A model that always emits a bare thought, with cancellation requested
from the second check on. -/
def cancelAtTwoAgent : Agent :=
  { llm := fun _ _ => Except.ok ("Thought: hmm"), tools := [],
    cancel := fun j => decide (2 ≤ j) }

/-- Witness for C4 with the check firing at iteration 2 of a cap-3 run. -/
theorem c4_cancellation_boundary_witness :
    (run_streaming (noCancel cancelAtTwoAgent) 1).1.getLast? =
      some (timeoutStep 1) ∧
    run_streaming cancelAtTwoAgent 3 =
      ((run_streaming (noCancel cancelAtTwoAgent) 1).1.dropLast ++ [cancelStep],
       "Task cancelled by user") :=
  c4_cancellation_boundary cancelAtTwoAgent 3 2 (by decide) (by decide)
    (by decide) rfl
    (fun _ _ _ _ => ⟨"Thought: hmm", rfl, rfl⟩)
